import Mathlib

/-!
Verification of the bee-code-interpreter service against its specification.

This file gives a shallow embedding, in Lean 4, of the parts of the Python
source that the checked claims are about:

* `src/code_interpreter/services/storage.py` — the content-addressed object
  store (`Storage.writer`, `Storage.write`, `Storage.read`, `Storage.exists`);
* `src/code_interpreter/services/kubernetes_code_executor.py` — the executor
  pool (`fill_executor_pod_queue`, `executor_pod`) and the file-collection part
  of `execute`, together with its tenacity retry policy;
* `src/code_interpreter/services/custom_tool_executor.py` — the custom-tool
  AST walker (`_type_to_json_schema`), the docstring parser
  (`_parse_docstring`) and `CustomToolExecutor.execute`;
* `src/code_interpreter/services/http_server.py` — the `POST /v1/execute`
  handler;
* `src/code_interpreter/services/kubectl.py` — the error behaviour of
  `Kubectl._command`.

Python byte strings are modelled as `List Nat`, the filesystem directory
backing the store as an association list from file name to content, and the
SHA-256 hasher of `hashlib` as an abstract function argument `H` (its
collision-freedom, where needed, is an explicit hypothesis restricted to the
finitely many stored blobs).  Async code has no preemption between awaits;
each straight-line critical section is modelled as one pure function and the
interleaving of tasks as a small-step transition relation.
-/

/-- Byte strings (Python `bytes`). -/
abbrev ByteStr := List Nat

/-- Lookup in an association list keyed by strings (Python `dict.get` /
filesystem directory lookup). -/
def alookup {α : Type} : List (String × α) → String → Option α
  | [], _ => none
  | e :: es, k => if e.1 = k then some e.2 else alookup es k

/-- Python `dict` insertion: replaces the value at an existing key in place,
otherwise appends at the end (insertion order preserved). -/
def dictInsert {α : Type} : List (String × α) → String → α → List (String × α)
  | [], k, v => [(k, v)]
  | e :: es, k, v => if e.1 = k then (k, v) :: es else e :: dictInsert es k v

/-- Remove every entry with the given key. -/
def removeName {α : Type} : List (String × α) → String → List (String × α)
  | [], _ => []
  | e :: es, n => if e.1 = n then removeName es n else e :: removeName es n

/-- Lowercase hexadecimal digit. -/
def isHexLowerChar (c : Char) : Bool :=
  (48 ≤ c.toNat && c.toNat ≤ 57) || (97 ≤ c.toNat && c.toNat ≤ 102)

/-- Modelled from the spec: the `Hash` validator of
`code_interpreter.utils.validation` (the `utils` package is not under `src/`).
The spec defines an object hash as the 64-character lowercase hexadecimal
SHA-256 of the contents, `[0-9a-f]`. -/
def isHash (s : String) : Bool :=
  s.length = 64 && s.data.all isHexLowerChar

/-- The filesystem directory that backs the object store: file name → bytes. -/
abbrev FS := List (String × ByteStr)

/-- `(storage_path / name).exists()`. -/
def fsExists (fs : FS) (name : String) : Bool :=
  (alookup fs name).isSome

/-- `open(name, "wb")` followed by writing `content`: truncates any previous
file of that name. -/
def fsSet (fs : FS) (name : String) (content : ByteStr) : FS :=
  (name, content) :: removeName fs name

/-- `(storage_path / name).unlink()`. -/
def fsUnlink (fs : FS) (name : String) : FS :=
  removeName fs name

/-- `(storage_path / old).rename(storage_path / new)`. -/
def fsRename (fs : FS) (old new : String) : FS :=
  match alookup fs old with
  | none => fs
  | some c => fsSet (fsUnlink fs old) new c

/-- The temporary file name `f"tmp-..."` chosen by `Storage.writer`. -/
def tmpName (token : String) : String := "tmp-" ++ token

/-- `Storage.writer` (storage.py lines 44-80), run to completion:
open the temp file and write the byte chunks handed to the `ObjectWriter`
(`chunks` are exactly the bytes written before the scope exits; the wrapped
`write` also feeds them to the hasher, so the final hash is `H` of their
concatenation); on successful exit (`ok = true`) rename the temp file to the
hash name unless that name already exists; in the `finally` block unlink the
temp file if it is still present.  On an error exit (`ok = false`) the rename
is skipped and only the `finally` block runs. -/
def runWriter (H : ByteStr → String) (token : String) (fs : FS)
    (chunks : List ByteStr) (ok : Bool) : FS :=
  let tmp := tmpName token
  let fs1 := fsSet fs tmp chunks.flatten
  let fs2 :=
    if ok then
      let finalName := H chunks.flatten
      if fsExists fs1 finalName then fs1 else fsRename fs1 tmp finalName
    else fs1
  if fsExists fs2 tmp then fsUnlink fs2 tmp else fs2

/-- `Storage.write(data)` (storage.py lines 82-88): one `writer` scope with a
single `write(data)`, returning `f.hash()` — the hex digest of the bytes fed
to the hasher. -/
def storageWrite (H : ByteStr → String) (token : String) (fs : FS)
    (data : ByteStr) : FS × String :=
  (runWriter H token fs [data] true, H data)

/-- Error disposition of `Storage.read` / `Storage.reader`. -/
inductive StorageErr where
  | invalid
  | notFound
deriving DecidableEq

/-- `Storage.read(object_hash)` (storage.py lines 102-108): `@validate_call`
rejects a malformed hash; `reader` raises `FileNotFoundError` when the hash is
empty or no file of that name exists; otherwise the file's bytes are
returned. -/
def storageRead (fs : FS) (objectHash : String) : Except StorageErr ByteStr :=
  if !isHash objectHash then .error .invalid
  else if objectHash = "" then .error .notFound
  else
    match alookup fs objectHash with
    | none => .error .notFound
    | some c => .ok c

/-- `Storage.exists(object_hash)`. -/
def storageExists (fs : FS) (objectHash : String) : Bool :=
  fsExists fs objectHash

-- Basic association-list lemmas used by the storage proofs.

theorem alookup_removeName_self {α : Type} (es : List (String × α)) (n : String) :
    alookup (removeName es n) n = none := by
  induction es with
  | nil => rfl
  | cons e es ih =>
    by_cases h : e.1 = n
    · simp [removeName, h, ih]
    · simp [removeName, h, alookup, ih]

theorem removeName_of_alookup_none {α : Type} (es : List (String × α)) (n : String)
    (h : alookup es n = none) : removeName es n = es := by
  induction es with
  | nil => rfl
  | cons e es ih =>
    by_cases he : e.1 = n
    · simp [alookup, he] at h
    · simp only [alookup, if_neg he] at h
      simp [removeName, he, ih h]

theorem alookup_mem {α : Type} {es : List (String × α)} {n : String} {c : α}
    (h : alookup es n = some c) : (n, c) ∈ es := by
  induction es with
  | nil => simp [alookup] at h
  | cons e es ih =>
    by_cases he : e.1 = n
    · obtain ⟨k, v⟩ := e
      simp only [alookup, if_pos he] at h
      cases h
      cases he
      exact List.mem_cons_self _ _
    · simp only [alookup, if_neg he] at h
      exact List.mem_cons_of_mem _ (ih h)

theorem countP_eq_zero_of_alookup_none {α : Type} (es : List (String × α))
    (n : String) (h : alookup es n = none) :
    es.countP (fun e => e.1 == n) = 0 := by
  induction es with
  | nil => rfl
  | cons e es ih =>
    by_cases he : e.1 = n
    · simp [alookup, he] at h
    · simp only [alookup, if_neg he] at h
      simp [List.countP_cons, he, ih h]

theorem fsExists_eq_false_iff (fs : FS) (n : String) :
    fsExists fs n = false ↔ alookup fs n = none := by
  rw [fsExists]
  cases alookup fs n <;> simp

theorem fsExists_eq_true_iff (fs : FS) (n : String) :
    fsExists fs n = true ↔ ∃ c, alookup fs n = some c := by
  rw [fsExists]
  cases alookup fs n <;> simp

/-- A valid hash never collides with a writer's temporary file name: temp
names carry the `tmp-` mark which contains characters outside `[0-9a-f]`. -/
theorem isHash_ne_tmpName (s : String) (t : String) (h : isHash s = true) :
    s ≠ tmpName t := by
  intro he
  have hall : ∀ c ∈ s.data, isHexLowerChar c = true := by
    simp [isHash, List.all_eq_true] at h
    exact h.2
  have hmem : ('t' : Char) ∈ s.data := by
    rw [he]
    show 't' ∈ ("tmp-" ++ t).data
    rw [String.data_append]
    simp
  exact absurd (hall _ hmem) (by decide)

/-- A valid hash is not the empty string. -/
theorem isHash_ne_empty (s : String) (h : isHash s = true) : s ≠ "" := by
  intro he
  rw [he] at h
  simp [isHash] at h

/-- C2: for every byte string `B`, `Storage.write(B)` returns the (lowercase
hexadecimal SHA-256) digest `H B` produced by the hasher, and `Storage.read`
of that returned hash yields exactly `B`.  Hypotheses: the digest is a
well-formed hash string, the random temp name is fresh, every blob already in
the store is named by the digest of its content (every blob was written by
`writer`), and SHA-256 does not collide with `B` on any stored blob. -/
theorem storage_write_read_roundtrip (H : ByteStr → String) (token : String)
    (fs : FS) (B : ByteStr)
    (hH : isHash (H B) = true)
    (htok : fsExists fs (tmpName token) = false)
    (hcons : ∀ e ∈ fs, H e.2 = e.1)
    (hnc : ∀ e ∈ fs, H e.2 = H B → e.2 = B) :
    (storageWrite H token fs B).2 = H B ∧
      storageRead (storageWrite H token fs B).1 (H B) = .ok B := by
  refine ⟨rfl, ?_⟩
  have hjoin : ([B] : List ByteStr).flatten = B := by simp
  have htokl : alookup fs (tmpName token) = none :=
    (fsExists_eq_false_iff fs _).mp htok
  have hne : H B ≠ tmpName token := isHash_ne_tmpName _ _ hH
  show storageRead (runWriter H token fs [B] true) (H B) = .ok B
  unfold runWriter
  simp only [hjoin, eq_self_iff_true, if_true]
  have hfs1 : fsSet fs (tmpName token) B = (tmpName token, B) :: fs := by
    simp [fsSet, removeName_of_alookup_none fs _ htokl]
  rw [hfs1]
  by_cases hex : fsExists ((tmpName token, B) :: fs) (H B) = true
  · -- the final name already exists: the temp file is discarded
    rw [if_pos hex]
    have hl : alookup ((tmpName token, B) :: fs) (H B) = alookup fs (H B) := by
      simp [alookup, Ne.symm hne]
    obtain ⟨c, hc⟩ := (fsExists_eq_true_iff _ _).mp hex
    rw [hl] at hc
    have hmem := alookup_mem hc
    have hcB : c = B := hnc _ hmem (by rw [hcons _ hmem])
    have hexTmp : fsExists ((tmpName token, B) :: fs) (tmpName token) = true := by
      simp [fsExists, alookup]
    rw [if_pos hexTmp]
    have hunl : fsUnlink ((tmpName token, B) :: fs) (tmpName token) = fs := by
      simp [fsUnlink, removeName, removeName_of_alookup_none fs _ htokl]
    rw [hunl, storageRead, if_neg (by simp [hH]), if_neg (isHash_ne_empty _ hH), hc, hcB]
  · -- fresh blob: the temp file is renamed to the hash name
    rw [if_neg hex]
    have hren : fsRename ((tmpName token, B) :: fs) (tmpName token) (H B)
        = (H B, B) :: fs := by
      unfold fsRename
      have hltmp : alookup ((tmpName token, B) :: fs) (tmpName token) = some B := by
        simp [alookup]
      rw [hltmp]
      have hunl : fsUnlink ((tmpName token, B) :: fs) (tmpName token) = fs := by
        simp [fsUnlink, removeName, removeName_of_alookup_none fs _ htokl]
      rw [hunl]
      have hlf : alookup fs (H B) = none := by
        have := (fsExists_eq_false_iff ((tmpName token, B) :: fs) (H B)).mp
          (by simpa using hex)
        rw [show alookup ((tmpName token, B) :: fs) (H B) = alookup fs (H B) by
          simp [alookup, Ne.symm hne]] at this
        exact this
      simp [fsSet, removeName_of_alookup_none fs _ hlf]
    rw [hren]
    have hnotmp : fsExists ((H B, B) :: fs) (tmpName token) = false := by
      simp [fsExists, alookup, hne, htokl]
    rw [if_neg (by simp [hnotmp])]
    rw [storageRead, if_neg (by simp [hH]), if_neg (isHash_ne_empty _ hH)]
    simp [alookup]

/-- A fixed well-formed hash value used to instantiate the abstract hasher in
witnesses. -/
def constHash : String := String.mk (List.replicate 64 'a')

/-- Witness for C2 at a concrete input: the empty store, `B = [1, 2, 3]`, a
hasher returning a fixed well-formed digest. -/
theorem storage_write_read_roundtrip_witness :
    storageRead (storageWrite (fun _ => constHash) "t0" [] [1, 2, 3]).1
      ((fun (_ : ByteStr) => constHash) [1, 2, 3]) = .ok [1, 2, 3] :=
  (storage_write_read_roundtrip (fun _ => constHash) "t0" [] [1, 2, 3]
    (by decide) (by decide) (by intro e he; cases he) (by intro e he; cases he)).2

-- Writer-scope atomicity (claim C3).

theorem runWriter_error_eq (H : ByteStr → String) (token : String) (fs : FS)
    (chunks : List ByteStr) (htok : fsExists fs (tmpName token) = false) :
    runWriter H token fs chunks false = fs := by
  have htokl : alookup fs (tmpName token) = none :=
    (fsExists_eq_false_iff fs _).mp htok
  have hfs1 : fsSet fs (tmpName token) chunks.flatten
      = (tmpName token, chunks.flatten) :: fs := by
    simp [fsSet, removeName_of_alookup_none fs _ htokl]
  have hexTmp : fsExists ((tmpName token, chunks.flatten) :: fs) (tmpName token)
      = true := by
    simp [fsExists, alookup]
  unfold runWriter
  simp only [Bool.false_eq_true, if_false, hfs1, hexTmp, if_true]
  simp [fsUnlink, removeName, removeName_of_alookup_none fs _ htokl]

theorem runWriter_exists_eq (H : ByteStr → String) (token : String) (fs : FS)
    (chunks : List ByteStr) (htok : fsExists fs (tmpName token) = false)
    (hex : fsExists fs (H chunks.flatten) = true) :
    runWriter H token fs chunks true = fs := by
  have htokl : alookup fs (tmpName token) = none :=
    (fsExists_eq_false_iff fs _).mp htok
  have hfs1 : fsSet fs (tmpName token) chunks.flatten
      = (tmpName token, chunks.flatten) :: fs := by
    simp [fsSet, removeName_of_alookup_none fs _ htokl]
  obtain ⟨c, hc⟩ := (fsExists_eq_true_iff fs _).mp hex
  have hex1 : fsExists ((tmpName token, chunks.flatten) :: fs) (H chunks.flatten)
      = true := by
    by_cases he : tmpName token = H chunks.flatten
    · simp [fsExists, alookup, he]
    · simp [fsExists, alookup, he, hc]
  have hexTmp : fsExists ((tmpName token, chunks.flatten) :: fs) (tmpName token)
      = true := by
    simp [fsExists, alookup]
  unfold runWriter
  simp only [eq_self_iff_true, if_true, hfs1, hex1, hexTmp]
  simp [fsUnlink, removeName, removeName_of_alookup_none fs _ htokl]

theorem runWriter_new_eq (H : ByteStr → String) (token : String) (fs : FS)
    (chunks : List ByteStr)
    (hH : isHash (H chunks.flatten) = true)
    (htok : fsExists fs (tmpName token) = false)
    (hex : fsExists fs (H chunks.flatten) = false) :
    runWriter H token fs chunks true = (H chunks.flatten, chunks.flatten) :: fs := by
  have htokl : alookup fs (tmpName token) = none :=
    (fsExists_eq_false_iff fs _).mp htok
  have hexl : alookup fs (H chunks.flatten) = none :=
    (fsExists_eq_false_iff fs _).mp hex
  have hne : H chunks.flatten ≠ tmpName token := isHash_ne_tmpName _ _ hH
  have hfs1 : fsSet fs (tmpName token) chunks.flatten
      = (tmpName token, chunks.flatten) :: fs := by
    simp [fsSet, removeName_of_alookup_none fs _ htokl]
  have hex1 : fsExists ((tmpName token, chunks.flatten) :: fs) (H chunks.flatten)
      = false := by
    simp [fsExists, alookup, Ne.symm hne, hexl]
  have hren : fsRename ((tmpName token, chunks.flatten) :: fs) (tmpName token)
      (H chunks.flatten) = (H chunks.flatten, chunks.flatten) :: fs := by
    unfold fsRename
    have hltmp : alookup ((tmpName token, chunks.flatten) :: fs) (tmpName token)
        = some chunks.flatten := by
      simp [alookup]
    rw [hltmp]
    have hunl : fsUnlink ((tmpName token, chunks.flatten) :: fs) (tmpName token)
        = fs := by
      simp [fsUnlink, removeName, removeName_of_alookup_none fs _ htokl]
    rw [hunl]
    simp [fsSet, removeName_of_alookup_none fs _ hexl]
  have hnotmp : fsExists ((H chunks.flatten, chunks.flatten) :: fs) (tmpName token)
      = false := by
    simp [fsExists, alookup, hne, htokl]
  unfold runWriter
  simp only [eq_self_iff_true, if_true, hfs1, hex1, Bool.false_eq_true, if_false,
    hren, hnotmp]

/-- C3: the writer scope is atomic on every exit path.  (1) On an error exit
the store is left exactly as it was: no file named by the final hash is
created by that writer and the temporary file is unlinked.  (2) On a
successful exit when a blob with the final hash name already exists, the
store is also unchanged (the temp file is discarded and the existing blob is
kept).  (3) Writing the same bytes twice from a store not yet holding them
leaves exactly one blob with the final hash name, containing those bytes.
Hypotheses: the digest is a well-formed hash string and the two random temp
names are fresh. -/
theorem writer_scope_atomic (H : ByteStr → String) (t1 t2 : String) (fs : FS)
    (chunks : List ByteStr)
    (hH : isHash (H chunks.flatten) = true)
    (ht1 : fsExists fs (tmpName t1) = false)
    (ht2 : fsExists fs (tmpName t2) = false) :
    runWriter H t1 fs chunks false = fs
    ∧ (fsExists fs (H chunks.flatten) = true → runWriter H t1 fs chunks true = fs)
    ∧ (fsExists fs (H chunks.flatten) = false →
        (runWriter H t2 (runWriter H t1 fs chunks true) chunks true).countP
            (fun e => e.1 == H chunks.flatten) = 1
        ∧ alookup (runWriter H t2 (runWriter H t1 fs chunks true) chunks true)
            (H chunks.flatten) = some chunks.flatten) := by
  refine ⟨runWriter_error_eq H t1 fs chunks ht1,
    fun hex => runWriter_exists_eq H t1 fs chunks ht1 hex, fun hex => ?_⟩
  have h1 := runWriter_new_eq H t1 fs chunks hH ht1 hex
  have hexl : alookup fs (H chunks.flatten) = none :=
    (fsExists_eq_false_iff fs _).mp hex
  have hne2 : H chunks.flatten ≠ tmpName t2 := isHash_ne_tmpName _ _ hH
  have ht2' : fsExists ((H chunks.flatten, chunks.flatten) :: fs) (tmpName t2)
      = false := by
    simp [fsExists, alookup, hne2, (fsExists_eq_false_iff fs _).mp ht2]
  have hex2 : fsExists ((H chunks.flatten, chunks.flatten) :: fs) (H chunks.flatten)
      = true := by
    simp [fsExists, alookup]
  have h2 : runWriter H t2 (runWriter H t1 fs chunks true) chunks true
      = (H chunks.flatten, chunks.flatten) :: fs := by
    rw [h1]
    exact runWriter_exists_eq H t2 _ chunks ht2' hex2
  rw [h2]
  constructor
  · simp [List.countP_cons, countP_eq_zero_of_alookup_none fs _ hexl]
  · simp [alookup]

/-- Witness for C3 at a concrete input: empty store, two chunks, fixed
digest. -/
theorem writer_scope_atomic_witness :
    runWriter (fun _ => constHash) "t1" [] [[1], [2]] false = []
    ∧ (runWriter (fun _ => constHash) "t2"
          (runWriter (fun _ => constHash) "t1" [] [[1], [2]] true) [[1], [2]] true).countP
        (fun e => e.1 == (fun (_ : ByteStr) => constHash) [[1], [2]].flatten) = 1 := by
  have h := writer_scope_atomic (fun _ => constHash) "t1" "t2" [] [[1], [2]]
    (by decide) (by decide) (by decide)
  exact ⟨h.1, (h.2.2 (by decide)).1⟩

-- Sandbox pool (claims C4 and C5):
-- `KubernetesCodeExecutor.fill_executor_pod_queue` and `executor_pod`.

/-- State of the executor pool held by `KubernetesCodeExecutor`: the ready
queue (`executor_pod_queue`, a FIFO of pod descriptors, identified here by
the order in which `kubectl create` produced them — `generateName` makes
every created pod name fresh, modelled by the counter `nextId`), the
`executor_pod_queue_spawning_count`, and two history variables recording
every pod ever yielded by the `executor_pod` context manager and every pod
whose deletion has been scheduled. -/
structure PoolState where
  queue : List Nat
  spawning : Nat
  nextId : Nat
  yielded : List Nat
  deleted : List Nat
deriving DecidableEq

/-- Pool state at construction time (`__init__`). -/
def initPool : PoolState :=
  { queue := [], spawning := 0, nextId := 0, yielded := [], deleted := [] }

/-- The replenishment step of `fill_executor_pod_queue` (lines 158-196): the
computation of `count_to_spawn` and the increment of the spawning counter
happen in one atomic step (there is no `await` between them).  Python
subtraction is over ℤ, so the computation is done in `Int` and the `≤ 0`
early return matches the source. -/
def fillExecutorPodQueue (target : Nat) (s : PoolState) : PoolState :=
  if (target : Int) - (s.queue.length : Int) - (s.spawning : Int) ≤ 0 then s
  else
    { s with
      spawning := s.spawning
        + ((target : Int) - (s.queue.length : Int) - (s.spawning : Int)).toNat }

/-- Exit status of the `async with executor_pod()` scope body. -/
inductive ScopeExit where
  | normal
  | error
  | cancelled
deriving DecidableEq

/-- Interleaved small steps of the pool, one per atomic section of the
source.  `spawnComplete`/`spawnFail` are the per-spawn continuations inside
`fill_executor_pod_queue` (append the fresh pod to the queue, or log the
failure, then decrement the spawning counter).  `acquireQueued` and
`acquireFresh` are one pass through the `executor_pod` context manager
(lines 248-264): pop the head of the queue — or spawn a fresh pod when the
queue is empty — yield it, and in the `finally` block schedule its deletion,
whatever the exit status of the scope body was. -/
inductive PoolStep (target : Nat) : PoolState → PoolState → Prop where
  | replenish (s : PoolState) :
      PoolStep target s (fillExecutorPodQueue target s)
  | spawnComplete (s : PoolState) (h : 0 < s.spawning) :
      PoolStep target s
        { s with queue := s.queue ++ [s.nextId], spawning := s.spawning - 1,
                 nextId := s.nextId + 1 }
  | spawnFail (s : PoolState) (h : 0 < s.spawning) :
      PoolStep target s { s with spawning := s.spawning - 1 }
  | acquireQueued (s : PoolState) (p : Nat) (rest : List Nat) (x : ScopeExit)
      (h : s.queue = p :: rest) :
      PoolStep target s
        { s with queue := rest, yielded := s.yielded ++ [p],
                 deleted := s.deleted ++ [p] }
  | acquireFresh (s : PoolState) (x : ScopeExit) (h : s.queue = []) :
      PoolStep target s
        { s with nextId := s.nextId + 1, yielded := s.yielded ++ [s.nextId],
                 deleted := s.deleted ++ [s.nextId] }

/-- Pool states reachable from construction. -/
inductive PoolReachable (target : Nat) : PoolState → Prop where
  | init : PoolReachable target initPool
  | step {s s' : PoolState} : PoolReachable target s → PoolStep target s s' →
      PoolReachable target s'

theorem fillExecutorPodQueue_sum_le (target : Nat) (s : PoolState)
    (h : s.queue.length + s.spawning ≤ target) :
    (fillExecutorPodQueue target s).queue.length
      + (fillExecutorPodQueue target s).spawning ≤ target := by
  unfold fillExecutorPodQueue
  split
  · exact h
  · dsimp only
    omega

theorem pool_sum_invariant (target : Nat) (s : PoolState)
    (h : PoolReachable target s) : s.queue.length + s.spawning ≤ target := by
  induction h with
  | init => simp [initPool]
  | step _ hs ih =>
    cases hs with
    | replenish => exact fillExecutorPodQueue_sum_le target _ ih
    | spawnComplete h =>
      dsimp only
      rw [List.length_append]
      simp only [List.length_cons, List.length_nil]
      omega
    | spawnFail h => dsimp only; omega
    | acquireQueued p rest x hq =>
      dsimp only
      rw [hq] at ih
      simp only [List.length_cons] at ih
      omega
    | acquireFresh x hq => exact ih

/-- C4: in every reachable pool state, immediately after a replenishment
step of `fill_executor_pod_queue` the queue length plus the in-flight
spawning count does not exceed the configured target length: `to_spawn` is
computed and added to the spawning counter in the same atomic step, so the
pool never over-spawns. -/
theorem pool_no_over_spawn (target : Nat) (s : PoolState)
    (h : PoolReachable target s) :
    (fillExecutorPodQueue target s).queue.length
      + (fillExecutorPodQueue target s).spawning ≤ target :=
  fillExecutorPodQueue_sum_le target s (pool_sum_invariant target s h)

/-- Witness for C4: the initial pool state with target length 3. -/
theorem pool_no_over_spawn_witness :
    (fillExecutorPodQueue 3 initPool).queue.length
      + (fillExecutorPodQueue 3 initPool).spawning ≤ 3 :=
  pool_no_over_spawn 3 initPool PoolReachable.init

/-- Identity invariant of the pool: queue entries are pairwise distinct
pods, never previously yielded, all pod identities are below the freshness
counter, yields are pairwise distinct, and every yielded pod has had its
deletion scheduled. -/
def poolIdInv (s : PoolState) : Prop :=
  s.queue.Nodup ∧ s.yielded.Nodup
    ∧ (∀ p ∈ s.queue, p ∉ s.yielded)
    ∧ (∀ p ∈ s.queue, p < s.nextId)
    ∧ (∀ p ∈ s.yielded, p < s.nextId)
    ∧ (∀ p ∈ s.yielded, p ∈ s.deleted)

theorem nodup_append_singleton {α : Type} {l : List α} {x : α}
    (hl : l.Nodup) (hx : x ∉ l) : (l ++ [x]).Nodup := by
  refine List.nodup_append.mpr ⟨hl, List.nodup_singleton x, ?_⟩
  intro a ha hb
  simp only [List.mem_singleton] at hb
  subst hb
  exact hx ha

theorem poolIdInv_reachable (target : Nat) (s : PoolState)
    (h : PoolReachable target s) : poolIdInv s := by
  induction h with
  | init => refine ⟨.nil, .nil, ?_, ?_, ?_, ?_⟩ <;> simp [initPool]
  | @step s1 s2 _ hs ih =>
    obtain ⟨hq, hy, hqy, hqlt, hylt, hyd⟩ := ih
    cases hs with
    | replenish =>
      unfold fillExecutorPodQueue
      split
      · exact ⟨hq, hy, hqy, hqlt, hylt, hyd⟩
      · exact ⟨hq, hy, hqy, hqlt, hylt, hyd⟩
    | spawnComplete h =>
      dsimp only [poolIdInv]
      refine ⟨?_, hy, ?_, ?_, ?_, hyd⟩
      · exact nodup_append_singleton hq (fun hc => absurd (hqlt _ hc) (by omega))
      · intro p hp
        rcases List.mem_append.mp hp with hp | hp
        · exact hqy p hp
        · simp only [List.mem_singleton] at hp
          subst hp
          intro hcon
          exact absurd (hylt _ hcon) (by omega)
      · intro p hp
        rcases List.mem_append.mp hp with hp | hp
        · have := hqlt p hp
          omega
        · simp only [List.mem_singleton] at hp
          omega
      · intro p hp
        have := hylt p hp
        omega
    | spawnFail h =>
      exact ⟨hq, hy, hqy, hqlt, hylt, hyd⟩
    | acquireQueued p rest x hqe =>
      have hpq : p ∈ s1.queue := by rw [hqe]; exact List.mem_cons_self _ _
      have hrest : ∀ q ∈ rest, q ∈ s1.queue := by
        intro q hqr
        rw [hqe]
        exact List.mem_cons_of_mem _ hqr
      have hpnr : p ∉ rest := by
        rw [hqe] at hq
        exact (List.nodup_cons.mp hq).1
      dsimp only [poolIdInv]
      refine ⟨?_, ?_, ?_, ?_, ?_, ?_⟩
      · rw [hqe] at hq
        exact (List.nodup_cons.mp hq).2
      · exact nodup_append_singleton hy (hqy p hpq)
      · intro q hqr hcon
        rcases List.mem_append.mp hcon with hc | hc
        · exact hqy q (hrest q hqr) hc
        · simp only [List.mem_singleton] at hc
          subst hc
          exact hpnr hqr
      · intro q hqr
        exact hqlt q (hrest q hqr)
      · intro q hqy2
        rcases List.mem_append.mp hqy2 with hc | hc
        · exact hylt q hc
        · simp only [List.mem_singleton] at hc
          subst hc
          exact hqlt q hpq
      · intro q hqy2
        rcases List.mem_append.mp hqy2 with hc | hc
        · exact List.mem_append_left _ (hyd q hc)
        · exact List.mem_append_right _ hc
    | acquireFresh x hqe =>
      dsimp only [poolIdInv]
      refine ⟨hq, ?_, ?_, ?_, ?_, ?_⟩
      · exact nodup_append_singleton hy (fun hc => absurd (hylt _ hc) (by omega))
      · intro q hqr hcon
        rcases List.mem_append.mp hcon with hc | hc
        · exact hqy q hqr hc
        · simp only [List.mem_singleton] at hc
          subst hc
          exact absurd (hqlt _ hqr) (by omega)
      · intro q hqr
        have := hqlt q hqr
        omega
      · intro q hqy2
        rcases List.mem_append.mp hqy2 with hc | hc
        · have := hylt q hc
          omega
        · simp only [List.mem_singleton] at hc
          omega
      · intro q hqy2
        rcases List.mem_append.mp hqy2 with hc | hc
        · exact List.mem_append_left _ (hyd q hc)
        · exact List.mem_append_right _ hc

/-- C5: in every reachable pool state, no pod descriptor has ever been
yielded by the `executor_pod` scoped acquisition more than once (the yield
history has no duplicates), and every pod that was yielded has had its
deletion scheduled on scope exit — whatever way the scope exited. -/
theorem sandbox_unique_and_deleted (target : Nat) (s : PoolState)
    (h : PoolReachable target s) :
    s.yielded.Nodup ∧ ∀ p ∈ s.yielded, p ∈ s.deleted := by
  obtain ⟨_, hy, _, _, _, hyd⟩ := poolIdInv_reachable target s h
  exact ⟨hy, hyd⟩

/-- A small concrete run of the pool: replenish to target 2, one spawn
completes, the resulting pod is acquired and the scope exits with an
error. -/
def poolDemo1 : PoolState := fillExecutorPodQueue 2 initPool

def poolDemo2 : PoolState :=
  { poolDemo1 with queue := poolDemo1.queue ++ [poolDemo1.nextId],
                   spawning := poolDemo1.spawning - 1,
                   nextId := poolDemo1.nextId + 1 }

def poolDemo3 : PoolState :=
  { poolDemo2 with queue := [], yielded := poolDemo2.yielded ++ [0],
                   deleted := poolDemo2.deleted ++ [0] }

theorem poolDemo3_reachable : PoolReachable 2 poolDemo3 :=
  PoolReachable.step
    (PoolReachable.step
      (PoolReachable.step PoolReachable.init (PoolStep.replenish initPool))
      (PoolStep.spawnComplete poolDemo1 (by decide)))
    (PoolStep.acquireQueued poolDemo2 0 [] ScopeExit.error (by decide))

/-- Witness for C5: the concrete reachable state after one acquisition. -/
theorem sandbox_unique_and_deleted_witness :
    poolDemo3.yielded.Nodup ∧ ∀ p ∈ poolDemo3.yielded, p ∈ poolDemo3.deleted :=
  sandbox_unique_and_deleted 2 poolDemo3 poolDemo3_reachable

-- Retry policy of `KubernetesCodeExecutor.execute` (claim C9) and the error
-- behaviour of `Kubectl._command`.

/-- The exception classes that can escape one attempt of `execute`:
`RuntimeError` raised by `Kubectl._command` on a non-zero kubectl exit (the
orchestrator-adapter error), `httpx.HTTPStatusError` from
`raise_for_status`, `json.JSONDecodeError`, and pydantic's
`ValidationError` (bad hashes / bad call arguments). -/
inductive PyErr where
  | runtimeError (msg : String)
  | httpStatusError (status : Nat)
  | jsonDecodeError (msg : String)
  | validationError (msg : String)
deriving DecidableEq

/-- `retry_if_exception_type(RuntimeError)`: `isinstance(e, RuntimeError)`. -/
def isRuntimeError : PyErr → Bool
  | .runtimeError _ => true
  | _ => false

/-- tenacity `wait_exponential(multiplier, min, max)` evaluated after the
failed attempt numbered `attemptNumber` (numbering starts at 1):
`max(min, min(multiplier * 2 ** attempt_number, max))`. -/
def waitExponential (multiplier mn mx attemptNumber : Nat) : Nat :=
  max mn (min (multiplier * 2 ^ attemptNumber) mx)

/-- The wait configured on `execute`:
`wait_exponential(multiplier=1, min=4, max=10)`. -/
def executeWait (attemptNumber : Nat) : Nat := waitExponential 1 4 10 attemptNumber

/-- Outcome of a retrying call: final result (for an exhausted retry,
tenacity raises `RetryError` wrapping the last attempt's exception; we record
that exception), the number of attempts actually made, and the sequence of
backoff sleeps taken between attempts. -/
structure RetryRun (α : Type) where
  outcome : Except PyErr α
  attempts : Nat
  waits : List Nat

/-- The tenacity retry loop: run attempt number `attempt`; on success stop;
on a failure that the retry predicate rejects, re-raise immediately; on a
retryable failure, stop (after `stop_after_attempt` many attempts) or sleep
the configured wait and try again.  `r` is the number of attempts still
permitted. -/
def retryGo {α : Type} (p : PyErr → Bool) (w : Nat → Nat)
    (action : Nat → Except PyErr α) (attempt : Nat) : Nat → RetryRun α
  | 0 => ⟨.error (.runtimeError "retry loop exhausted"), 0, []⟩
  | r + 1 =>
    match action attempt with
    | .ok a => ⟨.ok a, attempt, []⟩
    | .error e =>
      if p e then
        if r = 0 then ⟨.error e, attempt, []⟩
        else
          let rest := retryGo p w action (attempt + 1) r
          ⟨rest.outcome, rest.attempts, w attempt :: rest.waits⟩
      else ⟨.error e, attempt, []⟩

/-- The `@retry(retry=retry_if_exception_type(...), stop=stop_after_attempt(n),
wait=...)` decorator applied to a fallible operation. -/
def retryRun {α : Type} (p : PyErr → Bool) (stopAfterAttempts : Nat)
    (w : Nat → Nat) (action : Nat → Except PyErr α) : RetryRun α :=
  retryGo p w action 1 stopAfterAttempts

/-- `Kubectl._command` (kubectl.py lines 78-96): a non-zero subprocess exit
raises `RuntimeError` carrying the decoded stderr; otherwise the decoded
stdout is returned. -/
def kubectlCommand (returncode : Int) (stdout stderr : String) :
    Except PyErr String :=
  if returncode ≠ 0 then
    .error (.runtimeError (s!"Error ({returncode}) running kubectl command: {stderr}"))
  else .ok stdout

theorem retryGo_attempts_le {α : Type} (p : PyErr → Bool) (w : Nat → Nat)
    (action : Nat → Except PyErr α) :
    ∀ (r attempt : Nat), (retryGo p w action attempt r).attempts ≤ attempt + r - 1 := by
  intro r
  induction r with
  | zero =>
    intro attempt
    simp [retryGo]
  | succ r ih =>
    intro attempt
    unfold retryGo
    cases haction : action attempt with
    | ok a => simp only []; omega
    | error e =>
      by_cases hp : p e
      · by_cases hr : r = 0
        · simp only [hp, if_true, hr]
          omega
        · simp only [hp, if_true, if_neg hr]
          have := ih (attempt + 1)
          omega
      · simp only [hp, Bool.false_eq_true, if_false]
        omega

/-- C9: the whole of `KubernetesCodeExecutor.execute` is wrapped in
`@retry(retry=retry_if_exception_type(RuntimeError),
stop=stop_after_attempt(3), wait=wait_exponential(multiplier=1, min=4,
max=10))`.  The operation is attempted at most 3 times; a failure that is
not a `RuntimeError` — the orchestrator-adapter error type raised by
`Kubectl._command`, whose every error is a `RuntimeError` — propagates
immediately after a single attempt with no backoff sleep; a `RuntimeError`
failure is retried after a backoff of base (multiplier) 1 second, clamped
between 4 and 10 seconds. -/
theorem execute_retry_policy {α : Type} (action : Nat → Except PyErr α) :
    (retryRun isRuntimeError 3 executeWait action).attempts ≤ 3
    ∧ (∀ e, action 1 = .error e → isRuntimeError e = false →
        retryRun isRuntimeError 3 executeWait action = ⟨.error e, 1, []⟩)
    ∧ (∀ e a, action 1 = .error e → isRuntimeError e = true → action 2 = .ok a →
        retryRun isRuntimeError 3 executeWait action = ⟨.ok a, 2, [executeWait 1]⟩)
    ∧ (∀ n, executeWait n = max 4 (min (1 * 2 ^ n) 10)
        ∧ 4 ≤ executeWait n ∧ executeWait n ≤ 10)
    ∧ (∀ rc out err e, kubectlCommand rc out err = .error e →
        isRuntimeError e = true) := by
  refine ⟨?_, ?_, ?_, ?_, ?_⟩
  · have := retryGo_attempts_le isRuntimeError executeWait action 3 1
    simpa [retryRun] using this
  · intro e h1 hp
    unfold retryRun retryGo
    simp [h1, hp]
  · intro e a h1 hp h2
    unfold retryRun retryGo
    simp only [h1, hp, if_true]
    norm_num
    unfold retryGo
    simp [h2]
  · intro n
    refine ⟨rfl, ?_, ?_⟩
    · exact le_max_left 4 _
    · exact max_le (by norm_num) (min_le_right _ _)
  · intro rc out err e h
    unfold kubectlCommand at h
    by_cases hrc : rc ≠ 0
    · rw [if_pos hrc] at h
      cases h
      rfl
    · rw [if_neg hrc] at h
      cases h

/-- Witness for C9: a concrete action whose first attempt fails with the
orchestrator `RuntimeError` and whose second attempt succeeds. -/
theorem execute_retry_policy_witness :
    retryRun isRuntimeError 3 executeWait
        (fun n => if n = 1 then .error (.runtimeError "kubectl failed")
                  else (.ok 0 : Except PyErr Nat))
      = ⟨.ok 0, 2, [executeWait 1]⟩ :=
  (execute_retry_policy
    (fun n => if n = 1 then .error (.runtimeError "kubectl failed")
              else (.ok 0 : Except PyErr Nat))).2.2.1
    (.runtimeError "kubectl failed") 0 rfl rfl rfl

-- `POST /v1/execute` handler (claim C8).

/-- Result dataclass of `KubernetesCodeExecutor.execute`. -/
structure ExecResult where
  stdout : String
  stderr : String
  exit_code : Int
  files : List (String × String)

/-- The parameters declared by `KubernetesCodeExecutor.execute`
(kubernetes_code_executor.py lines 78-83): `source_code` and `files` only.
`@validate_call` (pydantic) rejects any other keyword argument. -/
def kubernetesExecuteParams : List String := ["source_code", "files"]

/-- The keyword arguments the `POST /v1/execute` handler passes to
`code_executor.execute` (http_server.py lines 89-106): `source_code`,
`files` and `env`. -/
def httpExecuteCallKwargs : List String := ["source_code", "files", "env"]

/-- Body of `POST /v1/execute` as validated by the `ExecuteRequest` pydantic
model. -/
structure HttpExecuteRequest where
  source_code : String
  files : List (String × String)
  env : List (String × String)

/-- pydantic `@validate_call` keyword binding: the first keyword argument
that does not match a declared parameter raises `ValidationError`. -/
def validateCallKwargs (params given : List String) : Except PyErr Unit :=
  match given.filter (fun k => !params.contains k) with
  | [] => .ok ()
  | k :: _ => .error (.validationError (s!"unexpected keyword argument: {k}"))

/-- The call `code_executor.execute(source_code=..., files=..., env=...)`
made by the handler: the `@retry`-wrapped `@validate_call`-wrapped method.
The keyword binding fails before the method body (`engine`) can run, and
pydantic's `ValidationError` is not a `RuntimeError`, so tenacity does not
retry it. -/
def codeExecutorCall (req : HttpExecuteRequest)
    (engine : String → List (String × String) → ExecResult) :
    RetryRun ExecResult :=
  retryRun isRuntimeError 3 executeWait
    (fun _ =>
      match validateCallKwargs kubernetesExecuteParams httpExecuteCallKwargs with
      | .error e => .error e
      | .ok _ => .ok (engine req.source_code req.files))

/-- Rendering `str(e)` used in `HTTPException(status_code=500, detail=str(e))`. -/
def pyErrStr : PyErr → String
  | .runtimeError m => m
  | .httpStatusError st => s!"HTTP status error {st}"
  | .jsonDecodeError m => m
  | .validationError m => m

/-- Response of the `POST /v1/execute` handler. -/
inductive ExecuteHttpResponse where
  | ok (result : ExecResult)
  | httpError (status : Nat) (detail : String)

/-- The `execute` handler of http_server.py lines 89-106: call the executor
inside `try`; on any exception respond `HTTPException(status_code=500)`;
otherwise return the result. -/
def httpExecuteHandler (req : HttpExecuteRequest)
    (engine : String → List (String × String) → ExecResult) :
    ExecuteHttpResponse :=
  match (codeExecutorCall req engine).outcome with
  | .ok r => .ok r
  | .error e => .httpError 500 (pyErrStr e)

/-- C8 (the code violates the claim): for every request — valid body
included — the handler of `POST /v1/execute` responds with a 500 error and
never with the execution result, because it passes the keyword argument
`env` which `KubernetesCodeExecutor.execute` does not declare; the executor
body is never reached. -/
theorem http_execute_always_500 (req : HttpExecuteRequest)
    (engine : String → List (String × String) → ExecResult) :
    httpExecuteHandler req engine
      = .httpError 500 (pyErrStr (.validationError "unexpected keyword argument: env")) := by
  rfl

-- File collection inside `KubernetesCodeExecutor.execute` (claim C1).

/-- One entry of the sandbox `POST /execute` response `files` list. -/
structure RespFile where
  path : String
  old_hash : String
  new_hash : String

/-- The `changed_files` dict comprehension
(kubernetes_code_executor.py lines 122-127): keep the entries whose
`new_hash` differs from `old_hash` and is non-empty, mapping path to
`new_hash`. -/
def changedFiles (resp : List RespFile) : List (String × String) :=
  resp.foldl
    (fun d f =>
      if f.old_hash ≠ f.new_hash ∧ f.new_hash ≠ "" then dictInsert d f.path f.new_hash
      else d)
    []

/-- `download_file(file_path, file_hash)` (lines 129-138).  When the blob
already exists in the object store the function returns `None` (a bare
`return`); otherwise it streams the pod file into a storage writer and
returns the pair `(file_path, stored_file.hash)` — the hash of the bytes
actually downloaded (`podFs file_path`). -/
def downloadFile (H : ByteStr → String) (store : FS) (podFs : String → ByteStr)
    (filePath fileHash : String) : Option (String × String) :=
  if storageExists store fileHash then none
  else some (filePath, H (podFs filePath))

/-- The `stored_files` dict comprehension (lines 140-150): each result of
`asyncio.gather` is unpacked as a pair, left to right; unpacking the `None`
produced by `download_file` for an already-stored blob raises
`TypeError: cannot unpack non-iterable NoneType object`. -/
def unpackGathered : List (Option (String × String)) →
    Except String (List (String × String))
  | [] => .ok []
  | none :: _ => .error "TypeError: cannot unpack non-iterable NoneType object"
  | some pr :: rest =>
    match unpackGathered rest with
    | .error e => .error e
    | .ok d => .ok (pr :: d)

/-- The downloads-and-collect phase of `execute`: compute `changed_files`,
run `download_file` for each entry, unpack the gathered results and build
the `stored_files` dict (insertion order, later duplicate keys win) that
becomes `Result.files`. -/
def executeStoredFiles (H : ByteStr → String) (store : FS)
    (podFs : String → ByteStr) (resp : List RespFile) :
    Except String (List (String × String)) :=
  match unpackGathered
      ((changedFiles resp).map (fun pr => downloadFile H store podFs pr.1 pr.2)) with
  | .error e => .error e
  | .ok pairs => .ok (pairs.foldl (fun d pr => dictInsert d pr.1 pr.2) [])

/-- A second fixed well-formed hash value for concrete scenarios. -/
def constHash2 : String := String.mk (List.replicate 64 'b')

/-- C1 (code bug): the sandbox reports `/workspace/a.txt` as changed with a
non-empty `new_hash` that differs from its `old_hash`.  When the blob named
`new_hash` is absent from the object store, `execute` returns a `files` map
with exactly that entry; but when the blob already exists, `download_file`
returns `None`, the dict comprehension fails to unpack it, and `execute`
raises `TypeError` instead of returning a `Result` that includes the entry —
contradicting the claim and the spec's step "if exists(new_hash), skip
(download); return files = changed". -/
theorem execute_stored_files_typeerror :
    executeStoredFiles (fun _ => constHash2) []
        (fun _ => [1]) [⟨"/workspace/a.txt", "", constHash⟩]
      = .ok [("/workspace/a.txt", constHash2)]
    ∧ executeStoredFiles (fun _ => constHash2) [(constHash, [1])]
        (fun _ => [1]) [⟨"/workspace/a.txt", "", constHash⟩]
      = .error "TypeError: cannot unpack non-iterable NoneType object" := by
  constructor
  · rfl
  · rfl

-- JSON values and `json.loads` (used by `CustomToolExecutor.execute`,
-- claim C6, and by the AST walker's `Literal` branch, claim C7).

/-- JSON values (the Python values produced by `json.loads`). -/
inductive JVal where
  | null
  | bool (b : Bool)
  | num (n : Int)
  | str (s : String)
  | arr (elts : List JVal)
  | obj (fields : List (String × JVal))

/-- JSON whitespace. -/
def isJsonWs (c : Char) : Bool := c = ' ' || c = '\t' || c = '\n' || c = '\r'

def skipWsChars (cs : List Char) : List Char := cs.dropWhile isJsonWs

/-- JSON string escapes (the common single-character ones; `\\u` escapes are
outside the model). -/
def jsonEscape (c : Char) : Option Char :=
  if c = '"' then some '"'
  else if c = '\\' then some '\\'
  else if c = '/' then some '/'
  else if c = 'n' then some '\n'
  else if c = 't' then some '\t'
  else if c = 'r' then some '\r'
  else none

/-- Parse the remainder of a JSON string literal (after the opening quote). -/
def parseJStr : List Char → Except String (String × List Char)
  | [] => .error "Unterminated string"
  | '"' :: rest => .ok ("", rest)
  | '\\' :: c :: rest =>
    match jsonEscape c with
    | some ec =>
      match parseJStr rest with
      | .ok (s, r) => .ok (String.mk (ec :: s.data), r)
      | .error e => .error e
    | none => .error "Invalid escape"
  | c :: rest =>
    match parseJStr rest with
    | .ok (s, r) => .ok (String.mk (c :: s.data), r)
    | .error e => .error e

/-- Parse a JSON integer (the fragment of JSON numbers the model covers;
floating-point literals are outside the shallow embedding). -/
def parseJNum (neg : Bool) (cs : List Char) : Except String (JVal × List Char) :=
  let ds := cs.takeWhile Char.isDigit
  let rest := cs.dropWhile Char.isDigit
  if ds.isEmpty then .error "Expecting value"
  else
    match rest with
    | '.' :: _ => .error "floating-point literal outside model"
    | 'e' :: _ => .error "floating-point literal outside model"
    | 'E' :: _ => .error "floating-point literal outside model"
    | _ =>
      let n : Int := ds.foldl (fun a c => a * 10 + ((c.toNat : Int) - 48)) 0
      .ok (.num (if neg then -n else n), rest)

mutual

/-- Modelled from the spec: Python's `json.loads` value parser (the `json`
standard-library module is not part of this repository), on the JSON
fragment with integer numerals.  Fuel-indexed recursive descent. -/
def parseJVal : Nat → List Char → Except String (JVal × List Char)
  | 0, _ => .error "json depth exhausted"
  | fuel + 1, cs0 =>
    match skipWsChars cs0 with
    | [] => .error "Expecting value"
    | 'n' :: 'u' :: 'l' :: 'l' :: rest => .ok (.null, rest)
    | 't' :: 'r' :: 'u' :: 'e' :: rest => .ok (.bool true, rest)
    | 'f' :: 'a' :: 'l' :: 's' :: 'e' :: rest => .ok (.bool false, rest)
    | '"' :: rest =>
      match parseJStr rest with
      | .ok (s, r) => .ok (.str s, r)
      | .error e => .error e
    | '[' :: rest =>
      match skipWsChars rest with
      | ']' :: r2 => .ok (.arr [], r2)
      | cs2 =>
        match parseJArrItems fuel cs2 with
        | .ok (xs, r2) => .ok (.arr xs, r2)
        | .error e => .error e
    | '{' :: rest =>
      match skipWsChars rest with
      | '}' :: r2 => .ok (.obj [], r2)
      | cs2 =>
        match parseJObjItems fuel cs2 with
        | .ok (fs, r2) => .ok (.obj fs, r2)
        | .error e => .error e
    | c :: rest =>
      if c = '-' then parseJNum true rest
      else if c.isDigit then parseJNum false (c :: rest)
      else .error "Expecting value"

/-- One-or-more comma-separated array items, ending at `]`. -/
def parseJArrItems : Nat → List Char → Except String (List JVal × List Char)
  | 0, _ => .error "json depth exhausted"
  | fuel + 1, cs =>
    match parseJVal fuel cs with
    | .error e => .error e
    | .ok (v, r) =>
      match skipWsChars r with
      | ']' :: r2 => .ok ([v], r2)
      | ',' :: r2 =>
        match parseJArrItems fuel r2 with
        | .ok (vs, r3) => .ok (v :: vs, r3)
        | .error e => .error e
      | _ => .error "Expecting comma delimiter"

/-- One-or-more comma-separated object members, ending at the closing
brace. -/
def parseJObjItems : Nat → List Char → Except String (List (String × JVal) × List Char)
  | 0, _ => .error "json depth exhausted"
  | fuel + 1, cs =>
    match skipWsChars cs with
    | '"' :: rest =>
      match parseJStr rest with
      | .error e => .error e
      | .ok (k, r) =>
        match skipWsChars r with
        | ':' :: r2 =>
          match parseJVal fuel r2 with
          | .error e => .error e
          | .ok (v, r3) =>
            match skipWsChars r3 with
            | '}' :: r4 => .ok ([(k, v)], r4)
            | ',' :: r4 =>
              match parseJObjItems fuel r4 with
              | .ok (fs, r5) => .ok ((k, v) :: fs, r5)
              | .error e => .error e
            | _ => .error "Expecting comma delimiter"
        | _ => .error "Expecting colon delimiter"
    | _ => .error "Expecting property name"

end

/-- `json.loads`: parse one value and require only whitespace after it. -/
def jsonLoads (s : String) : Except String JVal :=
  match parseJVal (s.length + 1) s.data with
  | .error e => .error e
  | .ok (v, rest) => if skipWsChars rest = [] then .ok v else .error "Extra data"

-- `CustomToolExecutor.execute` (claim C6).

/-- What escapes `CustomToolExecutor.execute`: the declared
`CustomToolExecuteError(stderr)` on a non-zero exit code, or the raw
`json.JSONDecodeError` from `json.loads`. -/
inductive ToolErr where
  | execError (stderr : String)
  | jsonError (msg : String)

/-- Arguments of a `code_executor.execute` submission. -/
structure CodeExecRequest where
  source_code : String
  files : List (String × String)

/-- The submission made by `CustomToolExecutor.execute`
(custom_tool_executor.py lines 171-210): it passes only `source_code=` (the
synthesized driver program), so `files` takes its declared default
`frozendict()` — the empty file map. -/
def customToolRequest (driver : String) : CodeExecRequest :=
  { source_code := driver, files := [] }

/-- Result handling of `CustomToolExecutor.execute`: non-zero exit code
raises `CustomToolExecuteError(result.stderr)`; otherwise the value is
`json.loads(result.stdout)`. -/
def customToolHandleResult (r : ExecResult) : Except ToolErr JVal :=
  if r.exit_code ≠ 0 then .error (.execError r.stderr)
  else
    match jsonLoads r.stdout with
    | .ok v => .ok v
    | .error m => .error (.jsonError m)

/-- `CustomToolExecutor.execute` given the engine's behaviour on the
submitted request. -/
def customToolExecute (driver : String) (engine : CodeExecRequest → ExecResult) :
    Except ToolErr JVal :=
  customToolHandleResult (engine (customToolRequest driver))

/-- C6 counterexample: with exit code 0 and stdout `"3"`, the operation
returns the decoded JSON number 3, not the stdout string itself — `execute`
does not return the sandbox's stdout verbatim. -/
theorem custom_tool_execute_not_verbatim :
    customToolExecute "drv" (fun _ => ⟨"3", "", 0, []⟩) = .ok (JVal.num 3)
    ∧ customToolExecute "drv" (fun _ => ⟨"3", "", 0, []⟩) ≠ .ok (JVal.str "3") := by
  constructor
  · rfl
  · intro h
    rw [show customToolExecute "drv" (fun _ => ⟨"3", "", 0, []⟩) = .ok (JVal.num 3)
      from rfl] at h
    injection h with h2
    exact JVal.noConfusion h2

/-- C6 as amended: `CustomToolExecutor.execute` submits the driver program
with an empty file map; if the execution's exit code is non-zero it fails
with `CustomToolExecuteError` carrying the execution's stderr; and if the
exit code is zero it returns the value obtained by JSON-decoding the
sandbox's stdout (`json.loads(result.stdout)`), not the raw stdout. -/
theorem custom_tool_execute_spec (driver : String)
    (engine : CodeExecRequest → ExecResult) :
    (customToolRequest driver).files = []
    ∧ ((engine (customToolRequest driver)).exit_code ≠ 0 →
        customToolExecute driver engine
          = .error (.execError (engine (customToolRequest driver)).stderr))
    ∧ ((engine (customToolRequest driver)).exit_code = 0 →
        ∀ v, jsonLoads (engine (customToolRequest driver)).stdout = .ok v →
          customToolExecute driver engine = .ok v) := by
  refine ⟨rfl, ?_, ?_⟩
  · intro h
    unfold customToolExecute customToolHandleResult
    rw [if_pos h]
  · intro h v hv
    unfold customToolExecute customToolHandleResult
    rw [if_neg (by simp [h]), hv]

/-- Witness for C6 (amended): a concrete successful run whose stdout decodes
to the JSON array `[1, 2]`. -/
theorem custom_tool_execute_spec_witness :
    customToolExecute "drv2" (fun _ => ⟨"[1, 2]", "", 0, []⟩)
      = .ok (JVal.arr [JVal.num 1, JVal.num 2]) :=
  (custom_tool_execute_spec "drv2" (fun _ => ⟨"[1, 2]", "", 0, []⟩)).2.2 rfl
    (JVal.arr [JVal.num 1, JVal.num 2]) rfl

-- The custom-tool AST walker `_type_to_json_schema` and the typing alias
-- map built by `CustomToolExecutor.parse` (claim C7).

/-- A Python type-annotation AST node as `_type_to_json_schema` consumes it:
either a non-subscript node (`ast.Name` / `ast.Attribute` / `ast.Constant`,
identified by its `ast.unparse` text, carrying the `ast.literal_eval` value
when the node is a literal constant), an `ast.Tuple` of element nodes, or an
`ast.Subscript` with the `ast.unparse` text of its `value` part, of the
whole node, and its `slice` node. -/
inductive TypeNode where
  | plain (unparsed : String) (lit : Option JVal)
  | tup (unparsed : String) (elts : List TypeNode)
  | sub (valueUnparsed : String) (wholeUnparsed : String) (slice : TypeNode)

/-- `ast.unparse` on a modelled node. -/
def unparseT : TypeNode → String
  | .plain u _ => u
  | .tup u _ => u
  | .sub _ w _ => w

/-- `isinstance(node, ast.Tuple)`. -/
def isTupleNode : TypeNode → Bool
  | .tup _ _ => true
  | _ => false

/-- An import statement of the tool source prologue: `import NAME [as ASNAME]`
or `from MODULE import NAME [as ASNAME]` (one alias per entry). -/
inductive PyImport where
  | imp (name : String) (asname : Option String)
  | impFrom (module : String) (name : String) (asname : Option String)

/-- `typing_import_from_aliases` built by `CustomToolExecutor.parse`
(custom_tool_executor.py lines 74-86): plain `import typing as X` entries
(only those with an `asname`) mapped to `"typing"`, dict-unioned with
`from typing import N as A` entries mapped to `"typing.N"`. -/
def typingImportFromAliases (imports : List PyImport) : List (String × String) :=
  let d1 := imports.foldl
    (fun d i =>
      match i with
      | .imp "typing" (some a) => dictInsert d a "typing"
      | _ => d)
    []
  let d2 := imports.foldl
    (fun d i =>
      match i with
      | .impFrom "typing" n a => dictInsert d (a.getD n) ("typing." ++ n)
      | _ => d)
    []
  d2.foldl (fun d pr => dictInsert d pr.1 pr.2) d1

/-- `_to_json_schema_type(name, import_from_aliases)`:
`import_from_aliases.get(name, name)`. -/
def toJsonSchemaType (name : String) (aliases : List (String × String)) : String :=
  (alookup aliases name).getD name

/-- The non-subscript tail of `_type_to_json_schema`: the five atomic type
names; anything else raises `ValueError(f"Unsupported type: ...")`.  Note
the comparison is with the lowercase literal `"any"`. -/
def typeNameSchema (name : String) : Except String JVal :=
  if name = "int" then .ok (.obj [("type", .str "integer")])
  else if name = "float" then .ok (.obj [("type", .str "number")])
  else if name = "str" then .ok (.obj [("type", .str "string")])
  else if name = "bool" then .ok (.obj [("type", .str "boolean")])
  else if name = "any" then .ok (.obj [("type", .str "array")])
  else .error (s!"Unsupported type: {name}")

/-- `ast.literal_eval` on a modelled node. -/
def literalEval : TypeNode → Except String JVal
  | .plain _ (some v) => .ok v
  | _ => .error "malformed node or string"

mutual

/-- `_type_to_json_schema(type_node, aliases)`
(custom_tool_executor.py lines 215-264): the subscript branch chain in
source order, falling through to the atomic-name tail — on the unparse of
the whole node — when no subscript branch matches. -/
def typeToJsonSchema (aliases : List (String × String)) (t : TypeNode) :
    Except String JVal :=
  match t with
  | .sub valU wholeU slice =>
    let name := toJsonSchemaType valU aliases
    if name = "list" ∨ name = "typing.List" then
      match typeToJsonSchema aliases slice with
      | .ok s => .ok (.obj [("type", .str "array"), ("items", s)])
      | .error e => .error e
    else if (name = "dict" ∨ name = "typing.Dict") ∧ isTupleNode slice then
      match slice with
      | .tup _ [k, v] =>
        let keyName := toJsonSchemaType (unparseT k) aliases
        if keyName = "str" ∨ keyName = "typing.AnyStr" then
          match typeToJsonSchema aliases v with
          | .ok vs =>
            .ok (.obj [("type", .str "object"), ("additionalProperties", vs)])
          | .error e => .error e
        else .error ("Unsupported key type for dict: " ++ unparseT k)
      | _ => .error "ValueError: dict subscript does not unpack into two items"
    else if name = "optional" ∨ name = "typing.Optional" then
      match typeToJsonSchema aliases slice with
      | .ok s => .ok (.obj [("anyOf", .arr [.obj [("type", .str "null")], s])])
      | .error e => .error e
    else if (name = "union" ∨ name = "typing.Union") ∧ isTupleNode slice then
      match slice with
      | .tup _ elts =>
        match typeListSchemas aliases elts with
        | .ok ss => .ok (.obj [("anyOf", .arr ss)])
        | .error e => .error e
      | _ => .error "unreachable: guarded by isTupleNode"
    else if (name = "tuple" ∨ name = "typing.Tuple") ∧ isTupleNode slice then
      match slice with
      | .tup _ elts =>
        match typeListSchemas aliases elts with
        | .ok ss =>
          .ok (.obj [("type", .str "array"), ("minItems", .num elts.length),
            ("items", .arr ss), ("additionalItems", .bool false)])
        | .error e => .error e
      | _ => .error "unreachable: guarded by isTupleNode"
    else if name = "literal" ∨ name = "typing.Literal" ∨ name = "typing.LiteralString" then
      match slice with
      | .tup _ elts =>
        match litListEval elts with
        | .ok vs => .ok (.obj [("enum", .arr vs)])
        | .error e => .error e
      | s =>
        match literalEval s with
        | .ok v => .ok (.obj [("enum", .arr [v])])
        | .error e => .error e
    else if name = "final" ∨ name = "typing.Final" then
      typeToJsonSchema aliases slice
    else if name = "annotated" ∨ name = "typing.Annotated" then
      match slice with
      | .tup _ (base :: _) => typeToJsonSchema aliases base
      | .tup _ [] => .error "ValueError: annotated subscript with no items"
      | _ => .error "AttributeError: slice object has no attribute elts"
    else typeNameSchema (toJsonSchemaType wholeU aliases)
  | t => typeNameSchema (toJsonSchemaType (unparseT t) aliases)

/-- Schema of each element of a tuple slice, in order. -/
def typeListSchemas (aliases : List (String × String)) :
    List TypeNode → Except String (List JVal)
  | [] => .ok []
  | t :: ts =>
    match typeToJsonSchema aliases t with
    | .error e => .error e
    | .ok s =>
      match typeListSchemas aliases ts with
      | .error e => .error e
      | .ok ss => .ok (s :: ss)

/-- `ast.literal_eval` of each element of a `Literal[...]` tuple slice. -/
def litListEval : List TypeNode → Except String (List JVal)
  | [] => .ok []
  | t :: ts =>
    match literalEval t with
    | .error e => .error e
    | .ok v =>
      match litListEval ts with
      | .error e => .error e
      | .ok vs => .ok (v :: vs)

end

/-- C7 counterexample: with the prologue `from typing import Any`, the alias
map sends `Any` to `typing.Any`, and the walker, whose atomic comparison is
with the lowercase literal `"any"` only, raises
`ValueError("Unsupported type: typing.Any")` — it does not map the
annotation to the schema fragment with `type: array`. -/
theorem any_annotation_counterexample :
    typingImportFromAliases [.impFrom "typing" "Any" none] = [("Any", "typing.Any")]
    ∧ typeToJsonSchema [("Any", "typing.Any")] (.plain "Any" none)
        = .error "Unsupported type: typing.Any"
    ∧ typeToJsonSchema [("Any", "typing.Any")] (.plain "Any" none)
        ≠ .ok (.obj [("type", .str "array")]) := by
  refine ⟨rfl, rfl, ?_⟩
  intro h
  rw [show typeToJsonSchema [("Any", "typing.Any")] (.plain "Any" none)
      = .error "Unsupported type: typing.Any" from rfl] at h
  exact Except.noConfusion h

/-- C7 as amended: every way of writing typing's `Any` as a parameter
annotation — `Any` under `from typing import Any`, `typing.Any` under a
plain `import typing`, or an alias `A` under `from typing import Any as A` —
makes the AST walker raise the unsupported-type `ValueError`; only the
lowercase literal annotation text `any` is mapped to the schema fragment
`type: array`.  (For contrast, `list[int]` resolves normally.) -/
theorem any_annotation_behavior :
    typeToJsonSchema (typingImportFromAliases [.impFrom "typing" "Any" none])
        (.plain "Any" none) = .error "Unsupported type: typing.Any"
    ∧ typeToJsonSchema (typingImportFromAliases [.imp "typing" none])
        (.plain "typing.Any" none) = .error "Unsupported type: typing.Any"
    ∧ typeToJsonSchema (typingImportFromAliases [.impFrom "typing" "Any" (some "A")])
        (.plain "A" none) = .error "Unsupported type: typing.Any"
    ∧ typeToJsonSchema [] (.plain "any" none) = .ok (.obj [("type", .str "array")])
    ∧ typeToJsonSchema [] (.sub "list" "list[int]" (.plain "int" none))
        = .ok (.obj [("type", .str "array"), ("items", .obj [("type", .str "integer")])]) :=
  ⟨rfl, rfl, rfl, rfl, rfl⟩

-- The docstring parser `_parse_docstring` (claim C10).

/-- Python `\s` (ASCII range). -/
def isPySpace (c : Char) : Bool :=
  c = ' ' || c = '\t' || c = '\n' || c = '\r' || c = '\x0b' || c = '\x0c'

/-- `str.expandtabs()` with tab size 8: newline and return reset the
column. -/
def expandTabsGo : List Char → Nat → List Char
  | [], _ => []
  | c :: cs, col =>
    if c = '\t' then
      List.replicate (8 - col % 8) ' ' ++ expandTabsGo cs (col + (8 - col % 8))
    else if c = '\n' ∨ c = '\r' then c :: expandTabsGo cs 0
    else c :: expandTabsGo cs (col + 1)

/-- Split on newline characters (`str.split('\\n')`: keeps empty pieces,
always at least one piece). -/
def splitLinesChars : List Char → List (List Char)
  | [] => [[]]
  | c :: cs =>
    if c = '\n' then [] :: splitLinesChars cs
    else
      match splitLinesChars cs with
      | [] => [[c]]
      | l :: ls => (c :: l) :: ls

/-- `str.lstrip()`. -/
def stripLeftChars (cs : List Char) : List Char := cs.dropWhile isPySpace

/-- `str.strip()`. -/
def stripChars (cs : List Char) : List Char :=
  ((stripLeftChars cs).reverse.dropWhile isPySpace).reverse

/-- `'\\n'.join(lines)`. -/
def joinLinesChars : List (List Char) → List Char
  | [] => []
  | [l] => l
  | l :: ls => l ++ '\n' :: joinLinesChars ls

/-- Modelled from the spec and CPython: `inspect.cleandoc` (the `inspect`
standard-library module is not part of this repository): expand tabs, strip
the common leading indentation of all lines after the first, strip the first
line's leading whitespace, and drop leading and trailing blank lines. -/
def cleandocChars (doc : List Char) : List Char :=
  let lines := splitLinesChars (expandTabsGo doc 0)
  let margin := lines.tail.foldl
    (fun (m : Option Nat) line =>
      if (stripLeftChars line).length ≠ 0 then
        match m with
        | none => some (line.length - (stripLeftChars line).length)
        | some mm => some (min mm (line.length - (stripLeftChars line).length))
      else m)
    none
  let lines1 : List (List Char) :=
    match lines with
    | [] => []
    | l0 :: rest =>
      stripLeftChars l0 ::
        (match margin with
        | none => rest
        | some m => rest.map (fun l => l.drop m))
  let lines2 := (lines1.reverse.dropWhile List.isEmpty).reverse
  let lines3 := lines2.dropWhile List.isEmpty
  joinLinesChars lines3

def cleandoc (doc : String) : String := String.mk (cleandocChars doc.data)

/-- Scanner for `re.split(r"(^|\n)\s*:", s, flags=re.MULTILINE)`: a match is
either a line start (string start or just after a newline) followed by a
whitespace run and a colon — capturing the empty string — or a newline
followed by a whitespace run and a colon — capturing the newline.  Since the
character class of `\s*` excludes `:`, the backtracking regex matches
exactly when the maximal whitespace run is followed by `:`.  `re.split`
interleaves the text between matches with the captured groups. -/
def reSplitGo : Nat → List Char → Bool → List Char → List (List Char) →
    List (List Char)
  | 0, restAll, _, cur, acc => acc ++ [cur.reverse ++ restAll]
  | _ + 1, [], _, cur, acc => acc ++ [cur.reverse]
  | fuel + 1, c :: rest, atStart, cur, acc =>
    if atStart then
      match (c :: rest).dropWhile isPySpace with
      | ':' :: rest2 => reSplitGo fuel rest2 false [] (acc ++ [cur.reverse, []])
      | _ => reSplitGo fuel rest (c = '\n') (c :: cur) acc
    else if c = '\n' then
      match rest.dropWhile isPySpace with
      | ':' :: rest2 => reSplitGo fuel rest2 false [] (acc ++ [cur.reverse, ['\n']])
      | _ => reSplitGo fuel rest true (c :: cur) acc
    else reSplitGo fuel rest false (c :: cur) acc

def reSplitDirectives (cs : List Char) : List (List Char) :=
  reSplitGo (cs.length + 1) cs true [] []

/-- `[a-z_]` — the character class of the `:param` name group. -/
def isParamNameChar (c : Char) : Bool :=
  (97 ≤ c.toNat && c.toNat ≤ 122) || c = '_'

/-- An uppercase ASCII letter or a decimal digit. -/
def isUpperOrDigitChar (c : Char) : Bool :=
  (65 ≤ c.toNat && c.toNat ≤ 90) || (48 ≤ c.toNat && c.toNat ≤ 57)

/-- Tail of `re.match(r"param ([a-z_]+): ((?:.|\n)+)", chunk)` after the
literal `param `: the greedy name group is the maximal `[a-z_]` run (no
shorter run can be followed by `:`, because every run character is itself
not `:`), which must be non-empty and followed by `: ` and a non-empty
description. -/
def matchParamTail (rest : List Char) : Option (String × String) :=
  match rest.dropWhile isParamNameChar with
  | ':' :: ' ' :: d :: ds =>
    if (rest.takeWhile isParamNameChar).isEmpty then none
    else some (String.mk (rest.takeWhile isParamNameChar), String.mk (d :: ds))
  | _ => none

/-- `re.match(r"param ([a-z_]+): ((?:.|\n)+)", chunk, flags=re.MULTILINE)`. -/
def matchParamDirective (chunk : String) : Option (String × String) :=
  match chunk.data with
  | 'p' :: 'a' :: 'r' :: 'a' :: 'm' :: ' ' :: rest => matchParamTail rest
  | _ => none

/-- `re.match(r"return: ((?:.|\n)+)", chunk, flags=re.MULTILINE)`. -/
def matchReturnDirective (chunk : String) : Option String :=
  match chunk.data with
  | 'r' :: 'e' :: 't' :: 'u' :: 'r' :: 'n' :: ':' :: ' ' :: d :: ds =>
    some (String.mk (d :: ds))
  | _ => none

/-- The loop body of `_parse_docstring` over `chunks[1:]`: a `:param`
directive inserts a parameter description, otherwise a `:return` directive
replaces the return description, otherwise the chunk is ignored. -/
def docstringFoldStep (st : String × List (String × String)) (chunk : String) :
    String × List (String × String) :=
  match matchParamDirective chunk with
  | some (n, d) => (st.1, dictInsert st.2 n d)
  | none =>
    match matchReturnDirective chunk with
    | some r => (r, st.2)
    | none => st

/-- `_parse_docstring(docstring)` (custom_tool_executor.py lines 267-289):
clean the docstring, split it on directive starts, strip each chunk; the
first chunk is the function description, the remaining chunks feed the
directive loop; returns (function description, return description,
parameter descriptions). -/
def parseDocstring (docstring : String) :
    String × String × List (String × String) :=
  let chunks := (reSplitDirectives (cleandocChars docstring.data)).map
    (fun cs => String.mk (stripChars cs))
  match chunks with
  | [] => ("", "", [])
  | fnDesc :: rest =>
    let rp := rest.foldl docstringFoldStep ("", [])
    (fnDesc, rp.1, rp.2)

/-- The schema-fragment merge in `CustomToolExecutor.parse` (lines 117-130):
`{"description": d} if (d := param_descriptions.get(arg)) else {}` — the
`description` key is emitted only for a present, non-empty (truthy)
description. -/
def paramDescriptionFor (params : List (String × String)) (arg : String) :
    Option String :=
  match alookup params arg with
  | some d => if d = "" then none else some d
  | none => none

theorem matchParamTail_name_chars {rest : List Char} {n d : String}
    (h : matchParamTail rest = some (n, d)) :
    n.data.all isParamNameChar = true := by
  unfold matchParamTail at h
  split at h
  · split at h
    · exact absurd h (by simp)
    · simp only [Option.some.injEq, Prod.mk.injEq] at h
      obtain ⟨hn, _⟩ := h
      subst hn
      exact List.all_eq_true.mpr (fun c hc => List.mem_takeWhile_imp hc)
  · exact absurd h (by simp)

theorem matchParamDirective_name_chars {chunk n d : String}
    (h : matchParamDirective chunk = some (n, d)) :
    n.data.all isParamNameChar = true := by
  unfold matchParamDirective at h
  split at h
  · exact matchParamTail_name_chars h
  · exact absurd h (by simp)

theorem isParamNameChar_not_upperOrDigit {c : Char}
    (h : isParamNameChar c = true) : isUpperOrDigitChar c = false := by
  simp only [isParamNameChar, Bool.or_eq_true, Bool.and_eq_true,
    decide_eq_true_eq] at h
  rcases h with ⟨h1, h2⟩ | h
  · simp only [isUpperOrDigitChar, Bool.or_eq_true, Bool.and_eq_true,
      decide_eq_true_eq, Bool.or_eq_false_iff, Bool.and_eq_false_iff]
    constructor <;> simp only [decide_eq_false_iff_not] <;> omega
  · subst h
    decide

theorem mem_keys_dictInsert {α : Type} (d : List (String × α)) (n : String)
    (v : α) (k : String) (hk : k ∈ (dictInsert d n v).map Prod.fst) :
    k = n ∨ k ∈ d.map Prod.fst := by
  induction d with
  | nil =>
    simp [dictInsert] at hk
    exact Or.inl hk
  | cons e es ih =>
    by_cases he : e.1 = n
    · simp only [dictInsert, if_pos he, List.map_cons, List.mem_cons] at hk
      rcases hk with hk | hk
      · exact Or.inl hk
      · exact Or.inr (List.mem_cons_of_mem _ hk)
    · simp only [dictInsert, if_neg he, List.map_cons, List.mem_cons] at hk
      rcases hk with hk | hk
      · exact Or.inr (by simp [hk])
      · rcases ih hk with hk | hk
        · exact Or.inl hk
        · exact Or.inr (List.mem_cons_of_mem _ hk)

theorem docstringFold_keys (chunks : List String)
    (st : String × List (String × String))
    (hst : ∀ k ∈ st.2.map Prod.fst, k.data.all isParamNameChar = true) :
    ∀ k ∈ (chunks.foldl docstringFoldStep st).2.map Prod.fst,
      k.data.all isParamNameChar = true := by
  induction chunks generalizing st with
  | nil => exact hst
  | cons chunk rest ih =>
    refine ih (docstringFoldStep st chunk) ?_
    intro k hk
    unfold docstringFoldStep at hk
    split at hk
    · rename_i n d hm
      rcases mem_keys_dictInsert _ _ _ _ hk with hk | hk
      · subst hk
        exact matchParamDirective_name_chars hm
      · exact hst k hk
    · split at hk
      · exact hst k hk
      · exact hst k hk

theorem alookup_none_of_keys {α : Type} (params : List (String × α))
    (P : String → Prop) (hkeys : ∀ k ∈ params.map Prod.fst, P k)
    (arg : String) (harg : ¬ P arg) : alookup params arg = none := by
  induction params with
  | nil => rfl
  | cons e es ih =>
    have he : e.1 ≠ arg := by
      intro hc
      exact harg (hc ▸ hkeys e.1 (by simp))
    simp only [alookup, if_neg he]
    exact ih (fun k hk => hkeys k (List.mem_cons_of_mem _ hk))

/-- C10: the docstring parser recognizes a `:param NAME: TEXT` directive
only when `NAME` consists solely of lowercase letters and underscores; for
every docstring, a parameter name containing an uppercase letter or a digit
never appears among the parsed parameter descriptions, so `parse` emits no
`description` key in that parameter's schema fragment. -/
theorem docstring_param_name_lowercase (doc arg : String)
    (h : arg.data.any isUpperOrDigitChar = true) :
    alookup (parseDocstring doc).2.2 arg = none
    ∧ paramDescriptionFor (parseDocstring doc).2.2 arg = none := by
  have harg : ¬ arg.data.all isParamNameChar = true := by
    intro hall
    obtain ⟨c, hc, hcu⟩ := List.any_eq_true.mp h
    have := List.all_eq_true.mp hall c hc
    rw [isParamNameChar_not_upperOrDigit this] at hcu
    exact Bool.noConfusion hcu
  have hnone : alookup (parseDocstring doc).2.2 arg = none := by
    unfold parseDocstring
    cases hc : (reSplitDirectives (cleandocChars doc.data)).map
        (fun cs => String.mk (stripChars cs)) with
    | nil => rfl
    | cons fnDesc rest =>
      exact alookup_none_of_keys _ _
        (docstringFold_keys rest ("", []) (by simp)) arg harg
  refine ⟨hnone, ?_⟩
  unfold paramDescriptionFor
  rw [hnone]

/-- Witness for C10: the docstring `:param paramA: text` carries a `:param`
directive whose name has an uppercase letter; no description is parsed for
`paramA`. -/
theorem docstring_param_name_lowercase_witness :
    alookup (parseDocstring ":param paramA: text").2.2 "paramA" = none
    ∧ paramDescriptionFor (parseDocstring ":param paramA: text").2.2 "paramA"
        = none :=
  docstring_param_name_lowercase ":param paramA: text" "paramA" (by decide)

/-- Sanity check of the docstring pipeline on a well-formed docstring: a
lowercase `:param` name is parsed, with its description. -/
theorem parseDocstring_lowercase_demo :
    parseDocstring "Adds numbers.\n:param first: the first number\n:return: the sum"
      = ("Adds numbers.",
         "the sum", [("first", "the first number")]) := by
  rfl
